import Mathlib

/-!
Verification of the cohida feature-engineering and temporal-safety pipeline
(`src/ml`: `DataSplitter`, `TechnicalIndicators`, `Preprocessor`,
`FeatureEngineer`) against its specification.

The C++ code is shallowly embedded over exact rationals: a `double` value
becomes `ℚ`, a possibly-NaN entry becomes `Option ℚ` (with `none` playing the
role of the quiet-NaN sentinel), `Eigen` vectors become `List ℚ` or
`List (Option ℚ)`, matrices become lists of columns, and functions that throw
`std::invalid_argument` / `std::runtime_error` return `Except String`.
External numeric routines with no exact rational counterpart (`std::sqrt`,
`std::gmtime`) are passed in as explicit function parameters; `std::sort` is
modelled by an insertion sort.  Integer casts of positive doubles
(`static_cast<int>`) become rational floors.
-/

namespace ml

/-! ## DataSplitter (src/ml/DataSplitter.cpp) -/

/-- Result of `DataSplitter::split`: three contiguous slices of the feature
rows and of the target vector. -/
structure DataSplitRes (α : Type) where
  train : List α
  val : List α
  test : List α
  train_target : List ℚ
  val_target : List ℚ
  test_target : List ℚ
deriving DecidableEq

/-- `DataSplitter::split` including the ratio checks done by the
`DataSplitter` constructor (ratios must sum to 1 within `1e-6` and be
positive).  `tEnd0`/`vEnd0` are the raw boundaries
`static_cast<int>(n * ratio)`; the three `if`s mirror the boundary
adjustments in the C++ source. -/
def splitData {α : Type} (tr vr teR : ℚ) (X : List α) (y : List ℚ) :
    Except String (DataSplitRes α) :=
  if |tr + vr + teR - 1| > 1 / 1000000 then
    Except.error "Split ratios must sum to 1.0"
  else if tr ≤ 0 ∨ vr ≤ 0 ∨ teR ≤ 0 then
    Except.error "All split ratios must be positive"
  else
    let n : ℤ := X.length
    if n = 0 then Except.error "Cannot split empty data"
    else if n < 10 then Except.error "Data too small to split (need at least 10 rows)"
    else if X.length ≠ y.length then Except.error "X and y must have same number of rows"
    else
      let tEnd0 : ℤ := Int.floor ((n : ℚ) * tr)
      let vEnd0 : ℤ := tEnd0 + Int.floor ((n : ℚ) * vr)
      let tEnd : ℤ := if tEnd0 < 1 then 1 else tEnd0
      let vEnd1 : ℤ := if vEnd0 ≤ tEnd then tEnd + 1 else vEnd0
      let vEnd : ℤ := if vEnd1 ≥ n then n - 1 else vEnd1
      Except.ok
        { train := X.take tEnd.toNat
          val := (X.drop tEnd.toNat).take (vEnd - tEnd).toNat
          test := X.drop vEnd.toNat
          train_target := y.take tEnd.toNat
          val_target := (y.drop tEnd.toNat).take (vEnd - tEnd).toNat
          test_target := y.drop vEnd.toNat }

/-- One fold of `DataSplitter::walk_forward_splits`. -/
structure WalkForwardFold (α : Type) where
  train_X : List α
  train_y : List ℚ
  val_X : List α
  val_y : List ℚ
deriving DecidableEq

/-- The fold loop of `walk_forward_splits`: `i` is the C++ loop counter and
`r` the number of iterations left (`n_splits - i`); the loop `break`s when
`val_end <= train_end`. -/
def wfLoop {α : Type} (X : List α) (y : List ℚ) (minT tsz n : ℕ) :
    ℕ → ℕ → List (WalkForwardFold α)
  | _, 0 => []
  | i, r + 1 =>
    let tEnd := minT + i * tsz
    let vEnd := min (tEnd + tsz) n
    if vEnd ≤ tEnd then []
    else
      { train_X := X.take tEnd, train_y := y.take tEnd
        val_X := (X.drop tEnd).take (vEnd - tEnd)
        val_y := (y.drop tEnd).take (vEnd - tEnd) } :: wfLoop X y minT tsz n (i + 1) r

/-- `DataSplitter::walk_forward_splits`.  `min_train_size` defaults to
`static_cast<int>(n * 0.3)`; `test_size` is the C++ integer division
`(n - min_train) / n_splits`. -/
def walk_forward_splits {α : Type} (X : List α) (y : List ℚ) (n_splits : ℕ)
    (min_train_size : Option ℕ) : Except String (List (WalkForwardFold α)) :=
  let n := X.length
  if n = 0 then Except.error "Cannot split empty data"
  else if n_splits < 2 then Except.error "n_splits must be at least 2"
  else
    let minT := min_train_size.getD (Int.floor ((n : ℚ) * (3 / 10))).toNat
    if n ≤ minT then Except.error "min_train_size must be less than data size"
    else
      let tsz := (n - minT) / n_splits
      if tsz < 1 then Except.error "Not enough data for requested splits"
      else Except.ok (wfLoop X y minT tsz n 0 n_splits)

/-- `DataSplitter::verify_no_leakage` on integer timestamps: returns `true`
(vacuously) on an empty sequence or out-of-range indices, otherwise reports
leakage when `timestamps[train_end] >= timestamps[test_start]`. -/
def verify_no_leakage (ts : List ℤ) (train_end test_start : ℤ) : Bool :=
  if ts.isEmpty ∨ train_end < 0 ∨ test_start < 0 then true
  else if (ts.length : ℤ) ≤ train_end ∨ (ts.length : ℤ) ≤ test_start then true
  else !(decide (ts.getD test_start.toNat 0 ≤ ts.getD train_end.toNat 0))

/-- A 100-point strictly increasing timestamp sequence. -/
def ts100 : List ℤ := (List.range 100).map (fun k => (k : ℤ))

/-- C1 (code bug evidence): on a 10-row input with positive ratios
(0.9, 0.05, 0.05) that sum exactly to 1, `split` returns partitions of sizes
(9, 0, 1): the boundary adjustment leaves the validation partition empty,
contradicting the non-empty-partition guarantee. -/
theorem split_val_empty_at_ratios :
    (splitData (9 / 10) (1 / 20) (1 / 20) (List.range 10)
        (List.replicate 10 (0 : ℚ))).map
      (fun r => (r.train.length, r.val.length, r.test.length)) =
      Except.ok (9, 0, 1) := by
  simp only [splitData, List.length_range, List.length_replicate]
  norm_num [Except.map]
  decide

/-- C3: for in-range indices, `verify_no_leakage` returns `false` exactly when
the timestamp at `train_end` is at least the timestamp at `test_start`; on the
concrete 100-point strictly increasing sequence the calls at (49, 50) and
(50, 50) return `true` and `false` respectively. -/
theorem verify_no_leakage_iff (ts : List ℤ) (a b : ℤ)
    (ha0 : 0 ≤ a) (ha : a < (ts.length : ℤ))
    (hb0 : 0 ≤ b) (hb : b < (ts.length : ℤ)) :
    (verify_no_leakage ts a b = false ↔
      ts.getD b.toNat 0 ≤ ts.getD a.toNat 0) ∧
    verify_no_leakage ts100 49 50 = true ∧
    verify_no_leakage ts100 50 50 = false := by
  refine ⟨?_, by decide, by decide⟩
  have hne : ts.isEmpty = false := by
    cases ts with
    | nil => simp at ha; omega
    | cons x xs => rfl
  rw [verify_no_leakage]
  rw [if_neg (by simp [hne]; omega), if_neg (by omega)]
  simp

/-- The fold pushed by one iteration of the `walk_forward_splits` loop at
counter value `j`. -/
def wfFoldAt {α : Type} (X : List α) (y : List ℚ) (minT tsz n j : ℕ) :
    WalkForwardFold α :=
  let tEnd := minT + j * tsz
  let vEnd := min (tEnd + tsz) n
  { train_X := X.take tEnd, train_y := y.take tEnd
    val_X := (X.drop tEnd).take (vEnd - tEnd)
    val_y := (y.drop tEnd).take (vEnd - tEnd) }

theorem wfLoop_zero {α : Type} (X : List α) (y : List ℚ) (minT tsz n i : ℕ) :
    wfLoop X y minT tsz n i 0 = [] := rfl

theorem wfLoop_succ {α : Type} (X : List α) (y : List ℚ) (minT tsz n i r : ℕ) :
    wfLoop X y minT tsz n i (r + 1) =
      if min (minT + i * tsz + tsz) n ≤ minT + i * tsz then []
      else wfFoldAt X y minT tsz n i :: wfLoop X y minT tsz n (i + 1) r := rfl

theorem wfLoop_len_le {α : Type} (X : List α) (y : List ℚ) (minT tsz n : ℕ) :
    ∀ r i, (wfLoop X y minT tsz n i r).length ≤ r := by
  intro r
  induction r with
  | zero => intro i; rw [wfLoop_zero]; simp
  | succ r ih =>
    intro i
    rw [wfLoop_succ]
    split
    · simp
    · simpa using ih (i + 1)

theorem wfLoop_get {α : Type} (X : List α) (y : List ℚ) (minT tsz n : ℕ) :
    ∀ r i k, k < (wfLoop X y minT tsz n i r).length →
      (wfLoop X y minT tsz n i r)[k]? = some (wfFoldAt X y minT tsz n (i + k)) := by
  intro r
  induction r with
  | zero => intro i k hk; rw [wfLoop_zero] at hk; simp at hk
  | succ r ih =>
    intro i k hk
    rw [wfLoop_succ] at hk ⊢
    by_cases hgo : min (minT + i * tsz + tsz) n ≤ minT + i * tsz
    · rw [if_pos hgo] at hk; simp at hk
    · rw [if_neg hgo] at hk ⊢
      cases k with
      | zero => simp
      | succ k =>
        simp only [List.getElem?_cons_succ]
        simp only [List.length_cons] at hk
        rw [ih (i + 1) k (by omega)]
        congr 2
        omega

theorem wfLoop_stop {α : Type} (X : List α) (y : List ℚ) (minT tsz n : ℕ)
    (htsz : 1 ≤ tsz) :
    ∀ r i, (wfLoop X y minT tsz n i r).length < r →
      n ≤ minT + (i + (wfLoop X y minT tsz n i r).length) * tsz := by
  intro r
  induction r with
  | zero => intro i h; omega
  | succ r ih =>
    intro i h
    rw [wfLoop_succ] at h ⊢
    by_cases hstop : min (minT + i * tsz + tsz) n ≤ minT + i * tsz
    · rw [if_pos hstop] at h ⊢
      simp only [List.length_nil, Nat.add_zero]
      omega
    · rw [if_neg hstop] at h ⊢
      simp only [List.length_cons]
      have h2 := ih (i + 1) (by simpa using Nat.lt_of_succ_lt_succ h)
      have heq : i + 1 + (wfLoop X y minT tsz n (i + 1) r).length =
          i + ((wfLoop X y minT tsz n (i + 1) r).length + 1) := by omega
      rw [heq] at h2
      exact h2

/-- C5: with `n_splits ≥ 2` and `min_train_size < n`, `walk_forward_splits`
computes `test_size = (n - min_train_size) / n_splits` and fails when it is
zero; otherwise it succeeds with at most `n_splits` folds, fold `k` training
on the prefix `[0, min_train_size + k·test_size)` and validating on the next
`test_size` rows clipped to `n`; it stops early only when the next validation
window would be empty, and training windows are non-decreasing prefixes of
the data. -/
theorem walk_forward_splits_spec {α : Type} (X : List α) (y : List ℚ)
    (n_splits minT : ℕ) (hns : 2 ≤ n_splits) (hmt : minT < X.length)
    (hy : y.length = X.length) :
    (((X.length - minT) / n_splits = 0 →
        walk_forward_splits X y n_splits (some minT) =
          Except.error "Not enough data for requested splits")) ∧
    (1 ≤ (X.length - minT) / n_splits →
      ∃ folds, walk_forward_splits X y n_splits (some minT) = Except.ok folds) ∧
    ∀ folds, walk_forward_splits X y n_splits (some minT) = Except.ok folds →
      folds.length ≤ n_splits ∧
      (∀ k (hk : k < folds.length),
        folds[k] = wfFoldAt X y minT ((X.length - minT) / n_splits) X.length k ∧
        folds[k].train_X = X.take (minT + k * ((X.length - minT) / n_splits)) ∧
        folds[k].train_y = y.take (minT + k * ((X.length - minT) / n_splits)) ∧
        folds[k].val_X =
          (X.drop (minT + k * ((X.length - minT) / n_splits))).take
            (min (minT + k * ((X.length - minT) / n_splits) +
                (X.length - minT) / n_splits) X.length -
              (minT + k * ((X.length - minT) / n_splits))) ∧
        folds[k].val_y =
          (y.drop (minT + k * ((X.length - minT) / n_splits))).take
            (min (minT + k * ((X.length - minT) / n_splits) +
                (X.length - minT) / n_splits) X.length -
              (minT + k * ((X.length - minT) / n_splits)))) ∧
      (folds.length < n_splits →
        X.length ≤ minT + folds.length * ((X.length - minT) / n_splits)) ∧
      (∀ j k (hj : j < folds.length) (hk : k < folds.length), j ≤ k →
        folds[j].train_X.length ≤ folds[k].train_X.length) := by
  have hn0 : X.length ≠ 0 := by omega
  rw [walk_forward_splits]
  simp only [Option.getD_some]
  rw [if_neg hn0, if_neg (by omega), if_neg (by omega)]
  set tsz := (X.length - minT) / n_splits with htsz
  refine ⟨?_, ?_, ?_⟩
  · intro h0
    rw [if_pos (by omega)]
  · intro h1
    rw [if_neg (by omega)]
    exact ⟨_, rfl⟩
  · intro folds hok
    by_cases h0 : tsz < 1
    · rw [if_pos h0] at hok; cases hok
    rw [if_neg h0] at hok
    have hf : folds = wfLoop X y minT tsz X.length 0 n_splits := by
      injection hok.symm
    have hlen : folds.length ≤ n_splits := by
      rw [hf]; exact wfLoop_len_le X y minT tsz X.length n_splits 0
    have hgetk : ∀ k (hk : k < folds.length),
        folds[k] = wfFoldAt X y minT tsz X.length k := by
      intro k hk
      have hk2 : k < (wfLoop X y minT tsz X.length 0 n_splits).length := by
        rw [hf] at hk; exact hk
      have h1 := wfLoop_get X y minT tsz X.length n_splits 0 k hk2
      have h2 : folds[k]? = some folds[k] := List.getElem?_eq_getElem hk
      have h5 : folds[k]? = (wfLoop X y minT tsz X.length 0 n_splits)[k]? := by
        rw [hf]
      rw [h5, h1] at h2
      injection h2 with h6
      simpa using h6.symm
    refine ⟨hlen, ?_, ?_, ?_⟩
    · intro k hk
      refine ⟨hgetk k hk, ?_, ?_, ?_, ?_⟩ <;> rw [hgetk k hk] <;> rfl
    · intro hlt
      rw [hf]
      have hlt2 : (wfLoop X y minT tsz X.length 0 n_splits).length < n_splits := by
        rw [hf] at hlt; exact hlt
      have := wfLoop_stop X y minT tsz X.length (by omega) n_splits 0 hlt2
      simpa using this
    · intro j k hj hk hjk
      rw [hgetk j hj, hgetk k hk]
      simp only [wfFoldAt, List.length_take]
      have : minT + j * tsz ≤ minT + k * tsz :=
        Nat.add_le_add_left (Nat.mul_le_mul_right tsz hjk) minT
      omega

/-- Witness for C5 at `X = range 10`, `y = 10 zeros`, `n_splits = 2`,
`min_train_size = 4` (so `test_size = 3`). -/
theorem walk_forward_splits_spec_witness :
    ∃ folds, walk_forward_splits (List.range 10) (List.replicate 10 (0 : ℚ)) 2
        (some 4) = Except.ok folds ∧ folds.length ≤ 2 := by
  have h := walk_forward_splits_spec (List.range 10) (List.replicate 10 (0 : ℚ))
    2 4 (by norm_num) (by simp) (by simp)
  obtain ⟨folds, hok⟩ := h.2.1 (by simp)
  exact ⟨folds, hok, ((h.2.2 folds hok).1)⟩

/-! ## TechnicalIndicators (src/ml/TechnicalIndicators.cpp)

Each indicator column of length `n` is embedded as a function from the row
index to `Option ℚ`; `none` stands for the quiet-NaN fill of positions that
lack history, and all functions return `none` outside `[0, n)` (the C++
vector simply has no such entries).  Over exact rationals the C++ running
window sum of `sma` equals the direct sum over the trailing window, which is
how it is written here. -/

/-- `TechnicalIndicators::sma` at index `i`: mean of the trailing window of
size `p`; `none` when `p <= 0`, `p > n`, or `i < p - 1`. -/
def smaAt (data : List ℚ) (p : ℕ) (i : ℕ) : Option ℚ :=
  if p = 0 ∨ data.length < p ∨ i + 1 < p ∨ data.length ≤ i then none
  else some (((List.range p).map (fun k => data.getD (i + 1 - p + k) 0)).sum / p)

/-- The `ema` recursion: value at index `p - 1 + k` with seed
`SMA(first p values)` and `ema[i] = α·x[i] + (1-α)·ema[i-1]`,
`α = 2/(p+1)`. -/
def emaFrom (data : List ℚ) (p : ℕ) : ℕ → ℚ
  | 0 => ((List.range p).map (fun k => data.getD k 0)).sum / p
  | k + 1 =>
    (2 / ((p : ℚ) + 1)) * data.getD (p + k) 0 +
      (1 - 2 / ((p : ℚ) + 1)) * emaFrom data p k

/-- `TechnicalIndicators::ema` at index `i`. -/
def emaAt (data : List ℚ) (p : ℕ) (i : ℕ) : Option ℚ :=
  if p = 0 ∨ data.length < p ∨ i + 1 < p ∨ data.length ≤ i then none
  else some (emaFrom data p (i + 1 - p))

/-- Per-step gain `max(close[i] - close[i-1], 0)` (zero at index 0). -/
def gainAt (close : List ℚ) (i : ℕ) : ℚ :=
  if i = 0 then 0 else max (close.getD i 0 - close.getD (i - 1) 0) 0

/-- Per-step loss `max(close[i-1] - close[i], 0)` (zero at index 0). -/
def lossAt (close : List ℚ) (i : ℕ) : ℚ :=
  if i = 0 then 0 else max (close.getD (i - 1) 0 - close.getD i 0) 0

/-- Wilder smoothing of a step series `f` (used by RSI and ATR): value at
index `p + k`, seeded with the simple mean of `f 1 .. f p` and recursed as
`α·f[i] + (1-α)·prev` with `α = 1/p`. -/
def wilderFrom (f : ℕ → ℚ) (p : ℕ) : ℕ → ℚ
  | 0 => ((List.range p).map (fun k => f (k + 1))).sum / p
  | k + 1 =>
    (1 / (p : ℚ)) * f (p + k + 1) + (1 - 1 / (p : ℚ)) * wilderFrom f p k

/-- `TechnicalIndicators::rsi` at index `i`: `none` when `p <= 0`, `p >= n`
or `i < p`; `100` exactly when the smoothed average loss is zero, otherwise
`100 - 100/(1 + avg_gain/avg_loss)`. -/
def rsiAt (close : List ℚ) (p : ℕ) (i : ℕ) : Option ℚ :=
  if p = 0 ∨ close.length ≤ p ∨ i < p ∨ close.length ≤ i then none
  else if wilderFrom (lossAt close) p (i - p) = 0 then some 100
  else some (100 - 100 /
    (1 + wilderFrom (gainAt close) p (i - p) / wilderFrom (lossAt close) p (i - p)))

/-- Population variance of the trailing window around the Bollinger middle
band value `m` (`sum2 / period` in the C++ source). -/
def bbVar (close : List ℚ) (p : ℕ) (i : ℕ) (m : ℚ) : ℚ :=
  ((List.range p).map (fun k => (close.getD (i + 1 - p + k) 0 - m) ^ 2)).sum / p

/-- Bollinger middle band: `sma(close, period)`. -/
def bbMiddleAt (close : List ℚ) (p : ℕ) (i : ℕ) : Option ℚ := smaAt close p i

/-- Bollinger upper band: `middle + numStd·sqrt(sum2/period)`; `sqrtf` stands
for the external `std::sqrt`. -/
def bbUpperAt (close : List ℚ) (p : ℕ) (numStd : ℚ) (sqrtf : ℚ → ℚ) (i : ℕ) :
    Option ℚ :=
  (smaAt close p i).map (fun m => m + numStd * sqrtf (bbVar close p i m))

/-- Bollinger lower band: `middle - numStd·sqrt(sum2/period)`. -/
def bbLowerAt (close : List ℚ) (p : ℕ) (numStd : ℚ) (sqrtf : ℚ → ℚ) (i : ℕ) :
    Option ℚ :=
  (smaAt close p i).map (fun m => m - numStd * sqrtf (bbVar close p i m))

theorem wilderFrom_nonneg (f : ℕ → ℚ) (p : ℕ) (hp : p ≠ 0)
    (hf : ∀ i, 0 ≤ f i) : ∀ k, 0 ≤ wilderFrom f p k := by
  have hp1 : (1 : ℚ) ≤ (p : ℚ) := by
    exact_mod_cast Nat.one_le_iff_ne_zero.mpr hp
  have hpp : (0 : ℚ) < (p : ℚ) := by linarith
  intro k
  induction k with
  | zero =>
    rw [wilderFrom]
    refine div_nonneg ?_ (le_of_lt hpp)
    refine List.sum_nonneg ?_
    intro x hx
    obtain ⟨j, _, rfl⟩ := List.mem_map.mp hx
    exact hf _
  | succ k ih =>
    rw [wilderFrom]
    have h1 : (0 : ℚ) ≤ 1 / (p : ℚ) := by positivity
    have h2 : (0 : ℚ) ≤ 1 - 1 / (p : ℚ) := by
      have : 1 / (p : ℚ) ≤ 1 := (div_le_one hpp).mpr hp1
      linarith
    exact add_nonneg (mul_nonneg h1 (hf _)) (mul_nonneg h2 ih)

/-- C7: at every defined index the RSI value lies in `[0, 100]`, and it is
exactly `100` whenever the smoothed average loss is exactly zero. -/
theorem rsi_bounds (close : List ℚ) (p i : ℕ) (x : ℚ)
    (hx : rsiAt close p i = some x) :
    (0 ≤ x ∧ x ≤ 100) ∧
    (wilderFrom (lossAt close) p (i - p) = 0 → x = 100) := by
  rw [rsiAt] at hx
  by_cases hguard : p = 0 ∨ close.length ≤ p ∨ i < p ∨ close.length ≤ i
  · rw [if_pos hguard] at hx; cases hx
  rw [if_neg hguard] at hx
  have hp : p ≠ 0 := fun h => hguard (Or.inl h)
  have hloss : ∀ j, 0 ≤ lossAt close j := by
    intro j
    rw [lossAt]
    split
    · exact le_refl 0
    · exact le_max_right _ _
  have hgain : ∀ j, 0 ≤ gainAt close j := by
    intro j
    rw [gainAt]
    split
    · exact le_refl 0
    · exact le_max_right _ _
  by_cases hl : wilderFrom (lossAt close) p (i - p) = 0
  · rw [if_pos hl] at hx
    injection hx with hx
    subst hx
    exact ⟨⟨by norm_num, le_refl _⟩, fun _ => rfl⟩
  · rw [if_neg hl] at hx
    injection hx with hx
    subst hx
    have hlpos : 0 < wilderFrom (lossAt close) p (i - p) :=
      lt_of_le_of_ne (wilderFrom_nonneg _ p hp hloss _) (Ne.symm hl)
    have hgpos : 0 ≤ wilderFrom (gainAt close) p (i - p) :=
      wilderFrom_nonneg _ p hp hgain _
    have hrs : 0 ≤ wilderFrom (gainAt close) p (i - p) /
        wilderFrom (lossAt close) p (i - p) := div_nonneg hgpos (le_of_lt hlpos)
    have hden : (1 : ℚ) ≤ 1 + wilderFrom (gainAt close) p (i - p) /
        wilderFrom (lossAt close) p (i - p) := by linarith
    have hdiv_pos : 0 < (100 : ℚ) /
        (1 + wilderFrom (gainAt close) p (i - p) /
          wilderFrom (lossAt close) p (i - p)) := by positivity
    have hdiv_le : (100 : ℚ) /
        (1 + wilderFrom (gainAt close) p (i - p) /
          wilderFrom (lossAt close) p (i - p)) ≤ 100 :=
      div_le_self (by norm_num) hden
    exact ⟨⟨by linarith, by linarith⟩, fun h => absurd h hl⟩

/-- Witness for C7 on the rising sequence `[1, 2, 3]` with period 1 at
index 1, where the average loss is zero and the RSI is 100. -/
theorem rsi_bounds_witness :
    rsiAt [1, 2, 3] 1 1 = some 100 ∧
    ((0 ≤ (100 : ℚ) ∧ (100 : ℚ) ≤ 100) ∧
      (wilderFrom (lossAt [1, 2, 3]) 1 (1 - 1) = 0 → (100 : ℚ) = 100)) := by
  have hx : rsiAt [1, 2, 3] 1 1 = some 100 := by
    norm_num [rsiAt, wilderFrom, lossAt, gainAt, List.range_succ]
  exact ⟨hx, rsi_bounds [1, 2, 3] 1 1 100 hx⟩

/-- C8: wherever the Bollinger middle band is defined, the middle band is the
SMA, the upper/lower bands equal `middle ± numStd·sqrt(sum2/period)`, and for
non-negative `numStd` (and a square root that is non-negative on non-negative
inputs) `lower ≤ middle ≤ upper`. -/
theorem bollinger_ordered (close : List ℚ) (p : ℕ) (numStd : ℚ)
    (sqrtf : ℚ → ℚ) (hstd : 0 ≤ numStd) (hsq : ∀ q, 0 ≤ q → 0 ≤ sqrtf q)
    (i : ℕ) (m : ℚ) (hm : smaAt close p i = some m) :
    bbMiddleAt close p i = some m ∧
    bbUpperAt close p numStd sqrtf i =
      some (m + numStd * sqrtf (bbVar close p i m)) ∧
    bbLowerAt close p numStd sqrtf i =
      some (m - numStd * sqrtf (bbVar close p i m)) ∧
    m - numStd * sqrtf (bbVar close p i m) ≤ m ∧
    m ≤ m + numStd * sqrtf (bbVar close p i m) := by
  have hvar : 0 ≤ bbVar close p i m := by
    rw [bbVar]
    refine div_nonneg ?_ (by positivity)
    refine List.sum_nonneg ?_
    intro x hx
    obtain ⟨j, _, rfl⟩ := List.mem_map.mp hx
    exact sq_nonneg _
  have hw : 0 ≤ numStd * sqrtf (bbVar close p i m) :=
    mul_nonneg hstd (hsq _ hvar)
  refine ⟨hm, ?_, ?_, by linarith, by linarith⟩
  · rw [bbUpperAt, hm]; rfl
  · rw [bbLowerAt, hm]; rfl

/-- Witness for C8 on `close = [1, 2]`, period 1, `numStd = 2`, with the
identity as square root, at index 0 (window `[1]`, variance 0). -/
theorem bollinger_ordered_witness :
    smaAt [1, 2] 1 0 = some 1 ∧
    (0 : ℚ) ≤ 2 ∧
    (bbMiddleAt [1, 2] 1 0 = some 1 ∧
      bbUpperAt [1, 2] 1 2 (fun q => q) 0 =
        some (1 + 2 * bbVar [1, 2] 1 0 1) ∧
      bbLowerAt [1, 2] 1 2 (fun q => q) 0 =
        some (1 - 2 * bbVar [1, 2] 1 0 1) ∧
      (1 : ℚ) - 2 * bbVar [1, 2] 1 0 1 ≤ 1 ∧
      (1 : ℚ) ≤ 1 + 2 * bbVar [1, 2] 1 0 1) := by
  have hm : smaAt [1, 2] 1 0 = some 1 := by
    norm_num [smaAt, List.range_succ]
  exact ⟨hm, by norm_num,
    bollinger_ordered [1, 2] 1 2 (fun q => q) (by norm_num)
      (fun q hq => hq) 0 1 hm⟩

/-! ## Preprocessor (src/ml/Preprocessor.cpp)

A matrix is a list of columns, each column a list of possibly-NaN entries
(`Option ℚ`); every preprocessing step of the C++ source operates column by
column.  The fitted Eigen parameter vectors (`mean_`, `std_`, ...) are
embedded as functions from the column index (out-of-range reads never occur
on the paths exercised by the source); the `±infinity` initial outlier
bounds become `none`.  `std::sort` is modelled by an insertion sort and
`std::sqrt` is an explicit function parameter `sqrtf`. -/

/-- The scale floor `1e-12` used to avoid division by zero. -/
def eps12 : ℚ := 1 / 1000000000000

/-- `std::numeric_limits<double>::max()`, the initial `lo` accumulator of the
minmax scaler. -/
def dblMax : ℚ := 2 ^ 1024 - 2 ^ 971

/-- `PreprocessorConfig` with the defaults of `include/ml/Preprocessor.h`. -/
structure PreprocessorConfig where
  scaler_type : String := "robust"
  missing_strategy : String := "ffill"
  outlier_method : String := "iqr"
  outlier_treatment : String := "clip"
  iqr_multiplier : ℚ := 3
  zscore_threshold : ℚ := 3
  exclude_from_scaling : List ℤ := []

/-- The state of a `Preprocessor` object: configuration, fitted flag and the
fitted per-column parameters. -/
structure PreState where
  config : PreprocessorConfig
  fitted : Bool
  n_features : ℕ
  scalable_cols : List ℕ
  meanF : ℕ → ℚ
  stdF : ℕ → ℚ
  medianF : ℕ → ℚ
  iqrF : ℕ → ℚ
  minF : ℕ → ℚ
  rangeF : ℕ → ℚ
  lowerF : ℕ → Option ℚ
  upperF : ℕ → Option ℚ

/-- A freshly constructed `Preprocessor` (member initializers of the
header: not fitted, no features, empty parameter vectors). -/
def initState (cfg : PreprocessorConfig) : PreState :=
  { config := cfg, fitted := false, n_features := 0, scalable_cols := []
    meanF := fun _ => 0, stdF := fun _ => 1
    medianF := fun _ => 0, iqrF := fun _ => 1
    minF := fun _ => 0, rangeF := fun _ => 1
    lowerF := fun _ => none, upperF := fun _ => none }

/-- `X.rows()` of a column-list matrix (all columns of an Eigen matrix have
the same length). -/
def rowsOf (X : List (List (Option ℚ))) : ℕ := (X.headD []).length

/-- Forward fill of one column carrying the previous (possibly still
missing) value, as in the `ffill` loop of `handle_missing`. -/
def ffillGo (prev : Option ℚ) : List (Option ℚ) → List (Option ℚ)
  | [] => []
  | v :: rest =>
    match v with
    | some x => some x :: ffillGo (some x) rest
    | none => prev :: ffillGo prev rest

/-- Mean imputation of one column (`mean` strategy): missing entries get the
mean of the present ones, unless the column is entirely missing. -/
def meanFill (col : List (Option ℚ)) : List (Option ℚ) :=
  let vals := col.filterMap id
  if vals.length = 0 then col
  else col.map (fun v =>
    match v with
    | none => some (vals.sum / vals.length)
    | some x => some x)

/-- The last present entry strictly before row `r` of a column, with its
index (the `last_valid` pointer of the interpolation loop). -/
def prevValid (col : List (Option ℚ)) (r : ℕ) : Option (ℕ × ℚ) :=
  (List.range r).reverse.findSome? fun j => (col.getD j none).map fun a => (j, a)

/-- The first present entry strictly after row `r` of a column. -/
def nextValid (col : List (Option ℚ)) (r : ℕ) : Option (ℕ × ℚ) :=
  ((List.range col.length).drop (r + 1)).findSome? fun j =>
    (col.getD j none).map fun a => (j, a)

/-- Linear interpolation of one column (`interpolate` strategy): interior
gaps between two present values are filled linearly; leading and trailing
missing runs stay missing. -/
def interpCol (col : List (Option ℚ)) : List (Option ℚ) :=
  (List.range col.length).map fun r =>
    match col.getD r none with
    | some x => some x
    | none =>
      match prevValid col r, nextValid col r with
      | some pa, some nb =>
        some (pa.2 + (nb.2 - pa.2) * ((r : ℚ) - (pa.1 : ℚ)) / ((nb.1 : ℚ) - (pa.1 : ℚ)))
      | _, _ => none

/-- Missing-data handling of one column, by strategy string; `drop` and
unknown strategies leave the column unchanged (row removal is the caller's
responsibility in the C++ source). -/
def hmCol (strat : String) (col : List (Option ℚ)) : List (Option ℚ) :=
  if strat = "ffill" then ffillGo none col
  else if strat = "bfill" then (ffillGo none col.reverse).reverse
  else if strat = "mean" then meanFill col
  else if strat = "interpolate" then interpCol col
  else col

/-- `Preprocessor::handle_missing`: columnwise missing-data handling. -/
def handle_missing (cfg : PreprocessorConfig) (X : List (List (Option ℚ))) :
    List (List (Option ℚ)) :=
  X.map (hmCol cfg.missing_strategy)

/-- Insertion of one element into a sorted list (model of `std::sort`). -/
def insertSorted (x : ℚ) : List ℚ → List ℚ
  | [] => [x]
  | y :: ys => if x ≤ y then x :: y :: ys else y :: insertSorted x ys

/-- Insertion sort, modelling `std::sort` on the gathered column values. -/
def sortQ (l : List ℚ) : List ℚ := l.foldr insertSorted []

/-- The non-missing values of a column, in order. -/
def colVals (col : List (Option ℚ)) : List ℚ := col.filterMap id

/-- Per-column outlier bounds of `fit_outlier_bounds` (`none` = infinite):
IQR bounds `q1 - k·iqr` / `q3 + k·iqr` from sorted-value quartiles at
positions `n/4` and `3n/4`, or z-score bounds `mean ± t·std` with the
population standard deviation. -/
def boundsOf (sqrtf : ℚ → ℚ) (cfg : PreprocessorConfig) (vals : List ℚ) :
    Option ℚ × Option ℚ :=
  if vals.length = 0 then (none, none)
  else if cfg.outlier_method = "iqr" then
    let s := sortQ vals
    let q1 := s.getD (s.length / 4) 0
    let q3 := s.getD (3 * s.length / 4) 0
    (some (q1 - cfg.iqr_multiplier * (q3 - q1)),
      some (q3 + cfg.iqr_multiplier * (q3 - q1)))
  else if cfg.outlier_method = "zscore" then
    let m := vals.sum / vals.length
    let sd := sqrtf ((vals.map (fun v => (v - m) ^ 2)).sum / vals.length)
    (some (m - cfg.zscore_threshold * sd), some (m + cfg.zscore_threshold * sd))
  else (none, none)

/-- Fitted (mean, std) of one column for the standard scaler: sample
standard deviation (n-1 denominator), scale floored to 1 below `1e-12`,
and 1 when at most one value is present. -/
def stdPairOf (sqrtf : ℚ → ℚ) (vals : List ℚ) : ℚ × ℚ :=
  if vals.length = 0 then (0, 1)
  else
    let m := vals.sum / vals.length
    let s0 := if 1 < vals.length then
        sqrtf ((vals.map (fun v => (v - m) ^ 2)).sum / ((vals.length : ℚ) - 1))
      else 1
    (m, if s0 < eps12 then 1 else s0)

/-- Fitted (median, iqr) of one column for the robust scaler, with the same
`1e-12` floor on the interquartile range. -/
def robustPairOf (vals : List ℚ) : ℚ × ℚ :=
  if vals.length = 0 then (0, 1)
  else
    let s := sortQ vals
    let q1 := s.getD (s.length / 4) 0
    let q3 := s.getD (3 * s.length / 4) 0
    (s.getD (s.length / 2) 0, if q3 - q1 < eps12 then 1 else q3 - q1)

/-- Fitted (min, range) of one column for the minmax scaler; the range
falls back to 1 unless `max - min` exceeds `1e-12`. -/
def minmaxPairOf (vals : List ℚ) : ℚ × ℚ :=
  let lo := vals.foldl min dblMax
  let hi := vals.foldl max (-dblMax)
  (lo, if hi - lo > eps12 then hi - lo else 1)

/-- `compute_scalable_cols`: all column indices below the feature count
whose index is not listed in `exclude_from_scaling`. -/
def scalableColsOf (cfg : PreprocessorConfig) (total : ℕ) : List ℕ :=
  (List.range total).filter fun c => decide ((c : ℤ) ∉ cfg.exclude_from_scaling)

/-- The state produced by a successful `Preprocessor::fit`: scalable
columns, outlier bounds (only when an outlier method is configured) and
scaler statistics (only for the configured scaler type), all computed on the
missing-handled working copy. -/
def fitSt (sqrtf : ℚ → ℚ) (cfg : PreprocessorConfig)
    (X : List (List (Option ℚ))) : PreState :=
  let nfeat := X.length
  let scalable := scalableColsOf cfg nfeat
  let clean := handle_missing cfg X
  { config := cfg, fitted := true, n_features := nfeat
    scalable_cols := scalable
    meanF := fun c => if cfg.scaler_type = "standard" ∧ c ∈ scalable then
        (stdPairOf sqrtf (colVals (clean.getD c []))).1 else 0
    stdF := fun c => if cfg.scaler_type = "standard" ∧ c ∈ scalable then
        (stdPairOf sqrtf (colVals (clean.getD c []))).2 else 1
    medianF := fun c => if cfg.scaler_type = "robust" ∧ c ∈ scalable then
        (robustPairOf (colVals (clean.getD c []))).1 else 0
    iqrF := fun c => if cfg.scaler_type = "robust" ∧ c ∈ scalable then
        (robustPairOf (colVals (clean.getD c []))).2 else 1
    minF := fun c => if cfg.scaler_type = "minmax" ∧ c ∈ scalable then
        (minmaxPairOf (colVals (clean.getD c []))).1 else 0
    rangeF := fun c => if cfg.scaler_type = "minmax" ∧ c ∈ scalable then
        (minmaxPairOf (colVals (clean.getD c []))).2 else 1
    lowerF := fun c => if cfg.outlier_method ≠ "" ∧ c ∈ scalable then
        (boundsOf sqrtf cfg (colVals (clean.getD c []))).1 else none
    upperF := fun c => if cfg.outlier_method ≠ "" ∧ c ∈ scalable then
        (boundsOf sqrtf cfg (colVals (clean.getD c []))).2 else none }

/-- `Preprocessor::fit`: fails on an empty matrix, otherwise commits the
fitted state. -/
def fit (sqrtf : ℚ → ℚ) (cfg : PreprocessorConfig)
    (X : List (List (Option ℚ))) : Except String PreState :=
  if rowsOf X = 0 then Except.error "Cannot fit on empty data"
  else Except.ok (fitSt sqrtf cfg X)

/-- `std::clamp` against possibly-infinite bounds. -/
def clampB (v : ℚ) (lo hi : Option ℚ) : ℚ :=
  let v1 := match lo with | some l => max v l | none => v
  match hi with | some h => min v1 h | none => v1

/-- Columnwise map applying `h c` to the present entries of every scalable
column `c` (the loop shape shared by `treat_outliers`, `apply_scaler` and
`apply_inverse_scaler`); `c0` is the index of the first column. -/
def scaleCols (scal : List ℕ) (h : ℕ → ℚ → ℚ) :
    ℕ → List (List (Option ℚ)) → List (List (Option ℚ))
  | _, [] => []
  | c, col :: rest =>
    (if c ∈ scal then col.map (Option.map (h c)) else col) ::
      scaleCols scal h (c + 1) rest

/-- `Preprocessor::treat_outliers`: clamp the present entries of scalable
columns to the fitted bounds for the `clip`/`winsorize` treatments; `remove`
(and anything else) is a no-op here (row filtering is left to the caller in
the C++ source and never performed). -/
def treat_outliers (st : PreState) (X : List (List (Option ℚ))) :
    List (List (Option ℚ)) :=
  if st.config.outlier_treatment = "clip" ∨ st.config.outlier_treatment = "winsorize" then
    scaleCols st.scalable_cols (fun c v => clampB v (st.lowerF c) (st.upperF c)) 0 X
  else X

/-- The scalar transformation of `apply_scaler` on one value of column `c`. -/
def scaleVal (st : PreState) (c : ℕ) (x : ℚ) : ℚ :=
  if st.config.scaler_type = "standard" then (x - st.meanF c) / st.stdF c
  else if st.config.scaler_type = "robust" then (x - st.medianF c) / st.iqrF c
  else if st.config.scaler_type = "minmax" then (x - st.minF c) / st.rangeF c
  else x

/-- The scalar transformation of `apply_inverse_scaler` on one value of
column `c`. -/
def invVal (st : PreState) (c : ℕ) (x : ℚ) : ℚ :=
  if st.config.scaler_type = "standard" then x * st.stdF c + st.meanF c
  else if st.config.scaler_type = "robust" then x * st.iqrF c + st.medianF c
  else if st.config.scaler_type = "minmax" then x * st.rangeF c + st.minF c
  else x

/-- `Preprocessor::apply_scaler`. -/
def apply_scaler (st : PreState) (X : List (List (Option ℚ))) :
    List (List (Option ℚ)) :=
  scaleCols st.scalable_cols (scaleVal st) 0 X

/-- `Preprocessor::apply_inverse_scaler`. -/
def apply_inverse_scaler (st : PreState) (X : List (List (Option ℚ))) :
    List (List (Option ℚ)) :=
  scaleCols st.scalable_cols (invVal st) 0 X

/-- `Preprocessor::transform`: fails before a successful `fit`; returns the
input unchanged on zero rows; otherwise missing handling, then outlier
treatment with the fit-time bounds (if configured), then scaling with the
fit-time statistics (if configured). -/
def transform (st : PreState) (X : List (List (Option ℚ))) :
    Except String (List (List (Option ℚ))) :=
  if st.fitted = false then
    Except.error "Preprocessor must be fitted before transform"
  else if rowsOf X = 0 then Except.ok X
  else
    let r1 := handle_missing st.config X
    let r2 := if st.config.outlier_method ≠ "" then treat_outliers st r1 else r1
    Except.ok (if st.config.scaler_type ≠ "" then apply_scaler st r2 else r2)

/-- `Preprocessor::inverse_transform`: returns the input unchanged when not
fitted or when no scaler is configured, otherwise applies the algebraic
inverse of the scaler only. -/
def inverse_transform (st : PreState) (X : List (List (Option ℚ))) :
    List (List (Option ℚ)) :=
  if st.fitted = false ∨ st.config.scaler_type = "" then X
  else apply_inverse_scaler st X

theorem ffillGo_length (col : List (Option ℚ)) :
    ∀ prev, (ffillGo prev col).length = col.length := by
  induction col with
  | nil => intro prev; rfl
  | cons v rest ih =>
    intro prev
    cases v with
    | none => simpa [ffillGo] using ih prev
    | some x => simpa [ffillGo] using ih (some x)

theorem meanFill_length (col : List (Option ℚ)) :
    (meanFill col).length = col.length := by
  rw [meanFill]
  split
  · rfl
  · simp

theorem interpCol_length (col : List (Option ℚ)) :
    (interpCol col).length = col.length := by
  simp [interpCol]

theorem hmCol_length (strat : String) (col : List (Option ℚ)) :
    (hmCol strat col).length = col.length := by
  rw [hmCol]
  split
  · exact ffillGo_length col none
  · split
    · simp [ffillGo_length]
    · split
      · exact meanFill_length col
      · split
        · exact interpCol_length col
        · rfl

theorem getD_map_length (f : List (Option ℚ) → List (Option ℚ))
    (hf : ∀ c, (f c).length = c.length) :
    ∀ (X : List (List (Option ℚ))) (j : ℕ),
      ((X.map f).getD j []).length = (X.getD j []).length := by
  intro X
  induction X with
  | nil => intro j; simp
  | cons c t ih =>
    intro j
    cases j with
    | zero => simpa using hf c
    | succ j => simpa using ih j

theorem scaleCols_nil (scal : List ℕ) (h : ℕ → ℚ → ℚ) (c0 : ℕ) :
    scaleCols scal h c0 [] = [] := rfl

theorem scaleCols_cons (scal : List ℕ) (h : ℕ → ℚ → ℚ) (c0 : ℕ)
    (col : List (Option ℚ)) (rest : List (List (Option ℚ))) :
    scaleCols scal h c0 (col :: rest) =
      (if c0 ∈ scal then col.map (Option.map (h c0)) else col) ::
        scaleCols scal h (c0 + 1) rest := rfl

theorem scaleCols_length (scal : List ℕ) (h : ℕ → ℚ → ℚ) :
    ∀ (X : List (List (Option ℚ))) (c0 : ℕ),
      (scaleCols scal h c0 X).length = X.length := by
  intro X
  induction X with
  | nil => intro c0; rfl
  | cons col rest ih =>
    intro c0
    rw [scaleCols_cons]
    simpa using ih (c0 + 1)

theorem scaleCols_getD (scal : List ℕ) (h : ℕ → ℚ → ℚ) :
    ∀ (X : List (List (Option ℚ))) (c0 j : ℕ),
      (scaleCols scal h c0 X).getD j [] =
        if c0 + j ∈ scal then (X.getD j []).map (Option.map (h (c0 + j)))
        else X.getD j [] := by
  intro X
  induction X with
  | nil =>
    intro c0 j
    rw [scaleCols_nil]
    split <;> simp
  | cons col rest ih =>
    intro c0 j
    rw [scaleCols_cons]
    cases j with
    | zero => simp
    | succ j =>
      simp only [List.getD_cons_succ]
      rw [ih (c0 + 1) j]
      have he : c0 + 1 + j = c0 + (j + 1) := by omega
      rw [he]

theorem scaleCols_inv (scal : List ℕ) (g h : ℕ → ℚ → ℚ)
    (hinv : ∀ c, c ∈ scal → ∀ x, g c (h c x) = x) :
    ∀ (X : List (List (Option ℚ))) (c0 : ℕ),
      scaleCols scal g c0 (scaleCols scal h c0 X) = X := by
  intro X
  induction X with
  | nil => intro c0; rfl
  | cons col rest ih =>
    intro c0
    rw [scaleCols_cons, scaleCols_cons]
    by_cases hc : c0 ∈ scal
    · rw [if_pos hc, if_pos hc, ih (c0 + 1)]
      congr 1
      rw [List.map_map]
      have : Option.map (g c0) ∘ Option.map (h c0) = id := by
        funext v
        cases v with
        | none => rfl
        | some x => simp [hinv c0 hc x]
      rw [this, List.map_id]
    · rw [if_neg hc, if_neg hc, ih (c0 + 1)]

theorem scaleCols_of_nil_cols (scal : List ℕ) (h : ℕ → ℚ → ℚ) :
    ∀ (X : List (List (Option ℚ))), (∀ col ∈ X, col = []) →
      ∀ c0, scaleCols scal h c0 X = X := by
  intro X
  induction X with
  | nil => intro _ c0; rfl
  | cons col rest ih =>
    intro hnil c0
    rw [scaleCols_cons]
    have hcol : col = [] := hnil col (List.mem_cons_self col rest)
    subst hcol
    rw [ih (fun c hc => hnil c (List.mem_cons_of_mem _ hc)) (c0 + 1)]
    split <;> rfl

theorem scale_floor_pos (s0 : ℚ) : 0 < if s0 < eps12 then 1 else s0 := by
  split
  · norm_num
  · rename_i h
    rw [not_lt] at h
    calc (0 : ℚ) < eps12 := by norm_num [eps12]
      _ ≤ s0 := h

theorem range_floor_pos (d : ℚ) : 0 < if d > eps12 then d else 1 := by
  split
  · rename_i h
    calc (0 : ℚ) < eps12 := by norm_num [eps12]
      _ < d := h
  · norm_num

theorem stdPairOf_pos (sqrtf : ℚ → ℚ) (vals : List ℚ) :
    0 < (stdPairOf sqrtf vals).2 := by
  rw [stdPairOf]
  split
  · norm_num
  · exact scale_floor_pos _

theorem robustPairOf_pos (vals : List ℚ) : 0 < (robustPairOf vals).2 := by
  rw [robustPairOf]
  split
  · norm_num
  · exact scale_floor_pos _

theorem minmaxPairOf_pos (vals : List ℚ) : 0 < (minmaxPairOf vals).2 := by
  rw [minmaxPairOf]
  exact range_floor_pos _

theorem fitSt_stdF_pos (sqrtf : ℚ → ℚ) (cfg : PreprocessorConfig)
    (X : List (List (Option ℚ))) (c : ℕ) : 0 < (fitSt sqrtf cfg X).stdF c := by
  show 0 < (if cfg.scaler_type = "standard" ∧ _ then _ else 1)
  split
  · exact stdPairOf_pos _ _
  · norm_num

theorem fitSt_iqrF_pos (sqrtf : ℚ → ℚ) (cfg : PreprocessorConfig)
    (X : List (List (Option ℚ))) (c : ℕ) : 0 < (fitSt sqrtf cfg X).iqrF c := by
  show 0 < (if cfg.scaler_type = "robust" ∧ _ then _ else 1)
  split
  · exact robustPairOf_pos _
  · norm_num

theorem fitSt_rangeF_pos (sqrtf : ℚ → ℚ) (cfg : PreprocessorConfig)
    (X : List (List (Option ℚ))) (c : ℕ) : 0 < (fitSt sqrtf cfg X).rangeF c := by
  show 0 < (if cfg.scaler_type = "minmax" ∧ _ then _ else 1)
  split
  · exact minmaxPairOf_pos _
  · norm_num

theorem invVal_scaleVal (st : PreState)
    (hstd : ∀ c, 0 < st.stdF c) (hiqr : ∀ c, 0 < st.iqrF c)
    (hrange : ∀ c, 0 < st.rangeF c) (c : ℕ) (x : ℚ) :
    invVal st c (scaleVal st c x) = x := by
  rw [invVal, scaleVal]
  split_ifs with h1 h2 h3
  · rw [div_mul_cancel₀ _ (ne_of_gt (hstd c)), sub_add_cancel]
  · rw [div_mul_cancel₀ _ (ne_of_gt (hiqr c)), sub_add_cancel]
  · rw [div_mul_cancel₀ _ (ne_of_gt (hrange c)), sub_add_cancel]
  · rfl

theorem treat_outliers_length (st : PreState) (Y : List (List (Option ℚ))) :
    (treat_outliers st Y).length = Y.length := by
  rw [treat_outliers]
  split
  · exact scaleCols_length _ _ Y 0
  · rfl

theorem treat_outliers_getD_length (st : PreState) (Y : List (List (Option ℚ)))
    (j : ℕ) : ((treat_outliers st Y).getD j []).length = (Y.getD j []).length := by
  rw [treat_outliers]
  split
  · rw [scaleCols_getD]
    split <;> simp
  · rfl

theorem apply_scaler_length (st : PreState) (Y : List (List (Option ℚ))) :
    (apply_scaler st Y).length = Y.length := by
  rw [apply_scaler]
  exact scaleCols_length _ _ Y 0

theorem apply_scaler_getD_length (st : PreState) (Y : List (List (Option ℚ)))
    (j : ℕ) : ((apply_scaler st Y).getD j []).length = (Y.getD j []).length := by
  rw [apply_scaler, scaleCols_getD]
  split <;> simp

theorem transform_eq (st : PreState) (X : List (List (Option ℚ)))
    (hft : st.fitted = true) (hr : rowsOf X ≠ 0) :
    transform st X = Except.ok
      (if st.config.scaler_type ≠ "" then
        apply_scaler st (if st.config.outlier_method ≠ "" then
            treat_outliers st (handle_missing st.config X)
          else handle_missing st.config X)
      else (if st.config.outlier_method ≠ "" then
          treat_outliers st (handle_missing st.config X)
        else handle_missing st.config X)) := by
  rw [transform, hft, if_neg (by simp), if_neg hr]

/-- C2 counterexample: on a freshly constructed `Preprocessor` (default
configuration, never fitted), `inverse_transform` does not fail: it returns
its input unchanged. -/
theorem inverse_transform_before_fit_no_error :
    inverse_transform (initState {}) [[some 1]] = [[some 1]] ∧
    (initState {}).fitted = false :=
  ⟨rfl, rfl⟩

/-- C2 amended: before a successful `fit`, `transform` fails fast with a
configuration error, while `inverse_transform` is a no-op returning its
input unchanged; neither commits any fitted state (both leave the state
untouched by construction). -/
theorem before_fit_behavior (cfg : PreprocessorConfig)
    (X : List (List (Option ℚ))) :
    transform (initState cfg) X =
      Except.error "Preprocessor must be fitted before transform" ∧
    inverse_transform (initState cfg) X = X :=
  ⟨rfl, rfl⟩

/-- C9: on any fitted `Preprocessor` state (any configuration, including
outlier treatment `remove`), `transform` succeeds and returns a matrix with
exactly the column count of its input and every column of unchanged length:
no rows are removed or added. -/
theorem transform_preserves_shape (st : PreState)
    (X : List (List (Option ℚ))) (hft : st.fitted = true) :
    ∃ X2, transform st X = Except.ok X2 ∧ X2.length = X.length ∧
      ∀ j, (X2.getD j []).length = (X.getD j []).length := by
  by_cases hr : rowsOf X = 0
  · refine ⟨X, ?_, rfl, fun j => rfl⟩
    rw [transform, hft, if_neg (by simp), if_pos hr]
  · rw [transform_eq st X hft hr]
    refine ⟨_, rfl, ?_, ?_⟩
    · split
      · rw [apply_scaler_length]
        split
        · rw [treat_outliers_length]
          simp [handle_missing]
        · simp [handle_missing]
      · split
        · rw [treat_outliers_length]
          simp [handle_missing]
        · simp [handle_missing]
    · intro j
      have hhm : ∀ j, ((handle_missing st.config X).getD j []).length =
          (X.getD j []).length :=
        getD_map_length _ (hmCol_length st.config.missing_strategy) X
      split
      · rw [apply_scaler_getD_length]
        split
        · rw [treat_outliers_getD_length]
          exact hhm j
        · exact hhm j
      · split
        · rw [treat_outliers_getD_length]
          exact hhm j
        · exact hhm j

/-- Configuration with outlier treatment `remove` for the C9 witness. -/
def cfg9 : PreprocessorConfig :=
  { scaler_type := "robust", missing_strategy := "ffill",
    outlier_method := "iqr", outlier_treatment := "remove",
    iqr_multiplier := 3, zscore_threshold := 3, exclude_from_scaling := [] }

/-- Witness for C9: a state fitted (treatment `remove`) on a one-column
matrix, transforming a one-column matrix with a missing entry. -/
theorem transform_preserves_shape_witness :
    (fitSt (fun q => q) cfg9 [[some 1, some 2]]).fitted = true ∧
    ∃ X2, transform (fitSt (fun q => q) cfg9 [[some 1, some 2]])
        [[none, some 7]] = Except.ok X2 ∧
      X2.length = ([[none, some 7]] : List (List (Option ℚ))).length ∧
      ∀ j, (X2.getD j []).length =
        (([[none, some 7]] : List (List (Option ℚ))).getD j []).length :=
  ⟨rfl, transform_preserves_shape (fitSt (fun q => q) cfg9 [[some 1, some 2]])
    [[none, some 7]] rfl⟩

/-- C4: after a successful `fit`, whenever the configured missing-value
handling and outlier treatment do not alter any value of `X`, `transform`
succeeds and `inverse_transform` recovers `X` exactly (exact rational
equality, hence well within the claimed `1e-8` tolerance), and every column
whose index is in the exclusion set is returned bit-for-bit unchanged by
`transform`. -/
theorem inverse_transform_roundtrip (sqrtf : ℚ → ℚ)
    (cfg : PreprocessorConfig) (X0 X : List (List (Option ℚ)))
    (_hfit : fit sqrtf cfg X0 = Except.ok (fitSt sqrtf cfg X0))
    (hrect : ∀ col ∈ X, col.length = rowsOf X)
    (hmiss : handle_missing cfg X = X)
    (hout : treat_outliers (fitSt sqrtf cfg X0) X = X) :
    ∃ X2, transform (fitSt sqrtf cfg X0) X = Except.ok X2 ∧
      inverse_transform (fitSt sqrtf cfg X0) X2 = X ∧
      ∀ c : ℕ, (c : ℤ) ∈ cfg.exclude_from_scaling →
        X2.getD c [] = X.getD c [] := by
  have hft : (fitSt sqrtf cfg X0).fitted = true := rfl
  have hcfg : (fitSt sqrtf cfg X0).config = cfg := rfl
  by_cases hr : rowsOf X = 0
  · have hnil : ∀ col ∈ X, col = [] := by
      intro col hc
      rw [← List.length_eq_zero, hrect col hc, hr]
    refine ⟨X, ?_, ?_, fun c _ => rfl⟩
    · rw [transform, hft, if_neg (by simp), if_pos hr]
    · rw [inverse_transform]
      split
      · rfl
      · rw [apply_inverse_scaler]
        exact scaleCols_of_nil_cols _ _ X hnil 0
  · rw [transform_eq _ X hft hr, hcfg, hmiss]
    have hinner : (if cfg.outlier_method ≠ "" then
        treat_outliers (fitSt sqrtf cfg X0) X else X) = X := by
      split
      · exact hout
      · rfl
    rw [hinner]
    by_cases hsc : cfg.scaler_type ≠ ""
    · rw [if_pos hsc]
      refine ⟨_, rfl, ?_, ?_⟩
      · have hcond : ¬((fitSt sqrtf cfg X0).fitted = false ∨
            (fitSt sqrtf cfg X0).config.scaler_type = "") := by
          rw [hft, hcfg]
          push_neg
          exact ⟨by simp, hsc⟩
        rw [inverse_transform, if_neg hcond, apply_inverse_scaler, apply_scaler]
        refine scaleCols_inv _ _ _ ?_ X 0
        intro c _ x
        exact invVal_scaleVal (fitSt sqrtf cfg X0)
          (fitSt_stdF_pos sqrtf cfg X0) (fitSt_iqrF_pos sqrtf cfg X0)
          (fitSt_rangeF_pos sqrtf cfg X0) c x
      · intro c hcmem
        rw [apply_scaler, scaleCols_getD]
        have hnotmem : ¬(0 + c ∈ (fitSt sqrtf cfg X0).scalable_cols) := by
          simp only [Nat.zero_add]
          intro hmem2
          have h2 := List.mem_filter.mp hmem2
          exact (of_decide_eq_true h2.2) hcmem
        rw [if_neg hnotmem]
    · rw [if_neg hsc]
      rw [not_not] at hsc
      refine ⟨X, rfl, ?_, fun c _ => rfl⟩
      rw [inverse_transform, if_pos (Or.inr (by rw [hcfg]; exact hsc))]

/-- Configuration for the C4 witness: robust scaler, forward fill, no
outlier method, column 1 excluded from scaling. -/
def cfg4 : PreprocessorConfig :=
  { scaler_type := "robust", missing_strategy := "ffill",
    outlier_method := "", outlier_treatment := "clip",
    iqr_multiplier := 3, zscore_threshold := 3, exclude_from_scaling := [1] }

/-- The two-column, three-row matrix of the C4 witness. -/
def mat4 : List (List (Option ℚ)) :=
  [[some 1, some 2, some 3], [some 5, some 5, some 5]]

/-- Witness for C4: fit and transform the concrete matrix `mat4` (no
missing values, no outlier method), checking all hypotheses there. -/
theorem inverse_transform_roundtrip_witness :
    (fit (fun q => q) cfg4 mat4 =
        Except.ok (fitSt (fun q => q) cfg4 mat4)) ∧
    handle_missing cfg4 mat4 = mat4 ∧
    ∃ X2, transform (fitSt (fun q => q) cfg4 mat4) mat4 = Except.ok X2 ∧
      inverse_transform (fitSt (fun q => q) cfg4 mat4) X2 = mat4 ∧
      ∀ c : ℕ, (c : ℤ) ∈ cfg4.exclude_from_scaling →
        X2.getD c [] = mat4.getD c [] := by
  have hfit : fit (fun q => q) cfg4 mat4 =
      Except.ok (fitSt (fun q => q) cfg4 mat4) := rfl
  have hmiss : handle_missing cfg4 mat4 = mat4 := rfl
  have hout : treat_outliers (fitSt (fun q => q) cfg4 mat4) mat4 = mat4 := rfl
  have hrect : ∀ col ∈ mat4, col.length = rowsOf mat4 := by decide
  exact ⟨hfit, hmiss,
    inverse_transform_roundtrip (fun q => q) cfg4 mat4 mat4 hfit hrect hmiss hout⟩

/-! ## Remaining indicators and FeatureEngineer columns
(src/ml/TechnicalIndicators.cpp `macd`/`true_range`/`atr`/`obv`/`vwap`/
`build_all`, src/ml/FeatureEngineer.cpp) -/

/-- `TechnicalIndicators::true_range` at index `i` (`none` at index 0). -/
def trAt (high low close : List ℚ) (i : ℕ) : Option ℚ :=
  if i = 0 ∨ high.length ≤ i then none
  else some (max (high.getD i 0 - low.getD i 0)
    (max |high.getD i 0 - close.getD (i - 1) 0| |low.getD i 0 - close.getD (i - 1) 0|))

/-- True range as a plain value (only read at indices `1 ≤ i < n`, where it
is defined). -/
def trD (high low close : List ℚ) (i : ℕ) : ℚ := (trAt high low close i).getD 0

/-- `TechnicalIndicators::atr` at index `i`: Wilder smoothing of the true
range, seeded at index `period` with the mean of the first `period` true
ranges. -/
def atrAt (high low close : List ℚ) (p i : ℕ) : Option ℚ :=
  if p = 0 ∨ high.length ≤ p ∨ i < p ∨ high.length ≤ i then none
  else some (wilderFrom (trD high low close) p (i - p))

/-- The `obv` running sum: add `volume` signed by the close-to-close
direction at each step. -/
def obvFrom (close volume : List ℚ) : ℕ → ℚ
  | 0 => 0
  | i + 1 =>
    obvFrom close volume i +
      (if close.getD (i + 1) 0 - close.getD i 0 > 0 then 1
       else if close.getD (i + 1) 0 - close.getD i 0 < 0 then -1
       else 0) * volume.getD (i + 1) 0

/-- `TechnicalIndicators::obv` at index `i` (defined everywhere in range,
starting at 0). -/
def obvAt (close volume : List ℚ) (i : ℕ) : Option ℚ :=
  if close.length ≤ i then none else some (obvFrom close volume i)

/-- `TechnicalIndicators::vwap` at index `i`: cumulative typical-price
volume over cumulative volume, `none` while the cumulative volume is not
positive. -/
def vwapAt (high low close volume : List ℚ) (i : ℕ) : Option ℚ :=
  if high.length ≤ i then none
  else
    let cumv := ((List.range (i + 1)).map (fun j => volume.getD j 0)).sum
    if cumv > 0 then
      some (((List.range (i + 1)).map (fun j =>
        ((high.getD j 0 + low.getD j 0 + close.getD j 0) / 3) *
          volume.getD j 0)).sum / cumv)
    else none

/-- MACD line: `EMA(fast) - EMA(slow)` where both are defined. -/
def macdLineAt (close : List ℚ) (fast slow : ℕ) (i : ℕ) : Option ℚ :=
  match emaAt close fast i, emaAt close slow i with
  | some a, some b => some (a - b)
  | _, _ => none

/-- First index at which the MACD line is defined (the `first_valid` scan of
the C++ source; `none` when it is nowhere defined). -/
def macdFirstValid (close : List ℚ) (fast slow : ℕ) : Option ℕ :=
  (List.range close.length).find? fun i => (macdLineAt close fast slow i).isSome

/-- NaN-propagating sum of a list of possibly-missing values. -/
def sumOpt : List (Option ℚ) → Option ℚ
  | [] => some 0
  | v :: rest =>
    match v, sumOpt rest with
    | some x, some s => some (x + s)
    | _, _ => none

/-- The MACD signal recursion: value at index `base + k` where `base` is the
seed index `first_valid + signal - 1`; a missing MACD-line value or a missing
previous signal value propagates NaN exactly as the C++ loop does. -/
def macdSignalFrom (line : ℕ → Option ℚ) (alpha : ℚ) (seed : Option ℚ)
    (base : ℕ) : ℕ → Option ℚ
  | 0 => seed
  | k + 1 =>
    match line (base + k + 1), macdSignalFrom line alpha seed base k with
    | some l, some s => some (alpha * l + (1 - alpha) * s)
    | _, _ => none

/-- MACD signal line at index `i`: the EMA of the MACD line started at its
first defined index, seeded there with a simple mean over `signal` values;
`none` when no seed window fits (`first_valid + signal > n`) or with a zero
signal period (where the C++ arithmetic produces only NaNs). -/
def macdSignalAt (close : List ℚ) (fast slow sig : ℕ) (i : ℕ) : Option ℚ :=
  match macdFirstValid close fast slow with
  | none => none
  | some fv =>
    if sig = 0 ∨ close.length < fv + sig ∨ i + 1 < fv + sig ∨ close.length ≤ i then
      none
    else
      macdSignalFrom (macdLineAt close fast slow) (2 / ((sig : ℚ) + 1))
        ((sumOpt ((List.range sig).map fun k =>
            macdLineAt close fast slow (fv + k))).map fun s => s / sig)
        (fv + sig - 1) (i - (fv + sig - 1))

/-- MACD histogram: `macd_line - signal` where both are defined. -/
def macdHistAt (close : List ℚ) (fast slow sig : ℕ) (i : ℕ) : Option ℚ :=
  match macdLineAt close fast slow i, macdSignalAt close fast slow sig i with
  | some l, some s => some (l - s)
  | _, _ => none

/-- `FeatureEngineer::pct_change`: percentage change over `p` steps,
undefined before index `p` or on a zero base value. -/
def pctChangeAt (data : List ℚ) (p i : ℕ) : Option ℚ :=
  if i < p ∨ data.length ≤ i then none
  else if data.getD (i - p) 0 = 0 then none
  else some ((data.getD i 0 - data.getD (i - p) 0) / data.getD (i - p) 0)

/-- A lagged copy of a column (`close_lag_*` / `vol_lag_*`). -/
def lagAt (data : List ℚ) (lag i : ℕ) : Option ℚ :=
  if i < lag ∨ data.length ≤ i then none else some (data.getD (i - lag) 0)

/-- Momentum over `h` steps (`close[i] - close[i-h]`). -/
def momentumAt (data : List ℚ) (h i : ℕ) : Option ℚ :=
  if i < h ∨ data.length ≤ i then none
  else some (data.getD i 0 - data.getD (i - h) 0)

/-- `FeatureEngineer::rolling_std`: sample standard deviation (n-1
denominator) of the trailing window, 0 for window size 1. -/
def rollStdAt (sqrtf : ℚ → ℚ) (data : List ℚ) (w i : ℕ) : Option ℚ :=
  if w = 0 ∨ data.length < w ∨ i + 1 < w ∨ data.length ≤ i then none
  else if 1 < w then
    some (sqrtf (((List.range w).map fun k =>
      (data.getD (i + 1 - w + k) 0 -
        ((List.range w).map fun k2 => data.getD (i + 1 - w + k2) 0).sum / w) ^ 2).sum /
        ((w : ℚ) - 1)))
  else some 0

/-- Volatility ratio `rolling_std / rolling_mean`, undefined when either
operand is undefined or the rolling mean is zero. -/
def volRatioAt (sqrtf : ℚ → ℚ) (data : List ℚ) (h i : ℕ) : Option ℚ :=
  match smaAt data h i, rollStdAt sqrtf data h i with
  | some rm, some rs => if rm = 0 then none else some (rs / rm)
  | _, _ => none

/-- `IndicatorConfig` with the defaults of
`include/ml/TechnicalIndicators.h`. -/
structure IndicatorConfig where
  sma_periods : List ℕ := [7, 14, 30, 50, 200]
  ema_periods : List ℕ := [12, 26, 50]
  rsi_period : ℕ := 14
  macd_fast : ℕ := 12
  macd_slow : ℕ := 26
  macd_signal : ℕ := 9
  bb_period : ℕ := 20
  bb_std : ℚ := 2
  atr_period : ℕ := 14

/-- `FeatureEngineerConfig` with the defaults of
`include/ml/FeatureEngineer.h`. -/
structure FeatureEngineerConfig where
  indicator_config : IndicatorConfig := {}
  lags : List ℕ := [1, 6, 24]
  rolling_windows : List ℕ := [6, 20]
  horizons : List ℕ := [1, 6, 24]
  include_temporal : Bool := true

/-- One OHLCV observation (`models::CryptoPriceData`), prices already
converted from decimals to numeric values, timestamp as an integer
instant. -/
structure CryptoPriceData where
  timestamp : ℤ
  open_price : ℚ
  high_price : ℚ
  low_price : ℚ
  close_price : ℚ
  volume : ℚ

/-- `ml::FeatureMatrix`: data (as a list of rows), column names, and
timestamps. -/
structure FeatureMatrix where
  data : List (List (Option ℚ))
  column_names : List String
  timestamps : List ℤ

/-- A base OHLCV column: always defined in range. -/
def baseAt (xs : List ℚ) (i : ℕ) : Option ℚ :=
  if xs.length ≤ i then none else some (xs.getD i 0)

/-- `TechnicalIndicators::build_all`: the base OHLCV columns followed by the
configured indicator columns, each paired with its name, in the fixed order
of the C++ source. -/
def buildAllPairs (sqrtf : ℚ → ℚ) (ic : IndicatorConfig)
    (o h l c v : List ℚ) : List (String × (ℕ → Option ℚ)) :=
  [("open", baseAt o), ("high", baseAt h), ("low", baseAt l),
    ("close", baseAt c), ("volume", baseAt v)]
  ++ ic.sma_periods.map (fun p => ("sma_" ++ toString p, smaAt c p))
  ++ ic.ema_periods.map (fun p => ("ema_" ++ toString p, emaAt c p))
  ++ [("rsi_" ++ toString ic.rsi_period, rsiAt c ic.rsi_period)]
  ++ [("macd", macdLineAt c ic.macd_fast ic.macd_slow),
      ("macd_signal", macdSignalAt c ic.macd_fast ic.macd_slow ic.macd_signal),
      ("macd_hist", macdHistAt c ic.macd_fast ic.macd_slow ic.macd_signal)]
  ++ [("bb_upper", bbUpperAt c ic.bb_period ic.bb_std sqrtf),
      ("bb_middle", bbMiddleAt c ic.bb_period),
      ("bb_lower", bbLowerAt c ic.bb_period ic.bb_std sqrtf)]
  ++ [("atr_" ++ toString ic.atr_period, atrAt h l c ic.atr_period)]
  ++ [("true_range", trAt h l c)]
  ++ [("obv", obvAt c v)]
  ++ [("vwap", vwapAt h l c v)]

/-- The temporal feature columns (`add_temporal_features`); `gm` stands for
the external `std::gmtime`, giving `(tm_hour, tm_wday, tm_mon)` for a
timestamp. -/
def temporalPairs (gm : ℤ → ℤ × ℤ × ℤ) (ts : List ℤ) :
    List (String × (ℕ → Option ℚ)) :=
  [("hour", fun i => if ts.length ≤ i then none
      else some (((gm (ts.getD i 0)).1 : ℚ))),
   ("dayofweek", fun i => if ts.length ≤ i then none
      else some (((gm (ts.getD i 0)).2.1 : ℚ))),
   ("month", fun i => if ts.length ≤ i then none
      else some ((((gm (ts.getD i 0)).2.2 + 1 : ℤ) : ℚ)))]

/-- All named feature columns built by `build_features`, in order: base and
indicator columns, returns per horizon, close/volume lags, rolling
statistics per window, multi-horizon features, and temporal encodings when
enabled. -/
def featPairs (sqrtf : ℚ → ℚ) (gm : ℤ → ℤ × ℤ × ℤ)
    (cfg : FeatureEngineerConfig) (rows : List CryptoPriceData) :
    List (String × (ℕ → Option ℚ)) :=
  let o := rows.map (·.open_price)
  let h := rows.map (·.high_price)
  let l := rows.map (·.low_price)
  let c := rows.map (·.close_price)
  let v := rows.map (·.volume)
  let ts := rows.map (·.timestamp)
  buildAllPairs sqrtf cfg.indicator_config o h l c v
  ++ cfg.horizons.map (fun hz => ("ret_" ++ toString hz, pctChangeAt c hz))
  ++ cfg.lags.flatMap (fun lag =>
      [("close_lag_" ++ toString lag, lagAt c lag),
       ("vol_lag_" ++ toString lag, lagAt v lag)])
  ++ cfg.rolling_windows.flatMap (fun w =>
      [("roll_mean_" ++ toString w, smaAt c w),
       ("roll_std_" ++ toString w, rollStdAt sqrtf c w),
       ("roll_vol_mean_" ++ toString w, smaAt v w)])
  ++ cfg.horizons.flatMap (fun hz =>
      [("hz_roll_mean_" ++ toString hz, smaAt c hz),
       ("hz_roll_std_" ++ toString hz, rollStdAt sqrtf c hz),
       ("hz_vol_mean_" ++ toString hz, smaAt v hz),
       ("hz_momentum_" ++ toString hz, momentumAt c hz),
       ("hz_vol_ratio_" ++ toString hz, volRatioAt sqrtf c hz)])
  ++ (if cfg.include_temporal ∧ ts ≠ [] then temporalPairs gm ts else [])

/-- `FeatureEngineer::build_features`: empty input gives the
default-constructed empty `FeatureMatrix`; otherwise all feature columns are
built and every row containing at least one undefined value is removed,
together with its timestamp. -/
def build_features (sqrtf : ℚ → ℚ) (gm : ℤ → ℤ × ℤ × ℤ)
    (cfg : FeatureEngineerConfig) : List CryptoPriceData → FeatureMatrix
  | [] => { data := [], column_names := [], timestamps := [] }
  | hd :: tl =>
    let rows := hd :: tl
    let n := rows.length
    let ts := rows.map (·.timestamp)
    let pairs := featPairs sqrtf gm cfg rows
    let valid := (List.range n).filter fun i => pairs.all fun pr => (pr.2 i).isSome
    { data := valid.map fun i => pairs.map fun pr => pr.2 i
      column_names := pairs.map Prod.fst
      timestamps := valid.map fun i => ts.getD i 0 }

/-- C6: for every input and configuration, the built `FeatureMatrix` has as
many data rows as timestamps, every data row has as many entries as there
are column names, and after the undefined-row-removal step no entry of the
data is undefined. -/
theorem build_features_invariant (sqrtf : ℚ → ℚ) (gm : ℤ → ℤ × ℤ × ℤ)
    (cfg : FeatureEngineerConfig) (input : List CryptoPriceData) :
    (build_features sqrtf gm cfg input).data.length =
      (build_features sqrtf gm cfg input).timestamps.length ∧
    (∀ row ∈ (build_features sqrtf gm cfg input).data,
      row.length = (build_features sqrtf gm cfg input).column_names.length) ∧
    (∀ row ∈ (build_features sqrtf gm cfg input).data,
      ∀ v2 ∈ row, v2.isSome = true) := by
  cases input with
  | nil =>
    refine ⟨rfl, ?_, ?_⟩ <;> intro row hrow <;> exact absurd hrow (List.not_mem_nil row)
  | cons hd tl =>
    simp only [build_features]
    refine ⟨by simp, ?_, ?_⟩
    · intro row hrow
      obtain ⟨i, _, rfl⟩ := List.mem_map.mp hrow
      simp
    · intro row hrow v2 hv2
      obtain ⟨i, hi, rfl⟩ := List.mem_map.mp hrow
      obtain ⟨pr, hpr, rfl⟩ := List.mem_map.mp hv2
      have hall := (List.mem_filter.mp hi).2
      exact List.all_eq_true.mp hall pr hpr

/-- C10: on the empty input sequence `build_features` does not fail and
returns the empty `FeatureMatrix` (zero rows, zero columns, no column
names, no timestamps) without computing any indicator. -/
theorem build_features_empty_input (sqrtf : ℚ → ℚ) (gm : ℤ → ℤ × ℤ × ℤ)
    (cfg : FeatureEngineerConfig) :
    build_features sqrtf gm cfg [] =
      { data := [], column_names := [], timestamps := [] } := rfl

/-- Witness for C3 at the concrete input `ts = [0, 5]`, indices (1, 0). -/
theorem verify_no_leakage_iff_witness :
    ((0 : ℤ) ≤ 1 ∧ (1 : ℤ) < (([0, 5] : List ℤ).length : ℤ)) ∧
    (verify_no_leakage [0, 5] 1 0 = false ↔
      ([0, 5] : List ℤ).getD (0 : ℤ).toNat 0 ≤ ([0, 5] : List ℤ).getD (1 : ℤ).toNat 0) := by
  refine ⟨⟨by decide, by decide⟩, ?_⟩
  exact (verify_no_leakage_iff [0, 5] 1 0 (by decide) (by decide) (by decide) (by decide)).1

end ml
